import Mathlib

/-!
Shallow embedding of the deblock-backend multi-chain transaction
subscription pipeline (package internal/chain), together with theorems
settling the specification claims about it.

Conventions of the embedding:
* Go machine integers are modelled as Nat / Int; wrap-around conversions
  (uint64 multiplication, int64 reinterpretation) are made explicit with
  mod 2^64 exactly where the Go source performs them.
* External library calls (RPC clients, address decoding of the btcutil
  library, signature recovery, the String method of address types) are
  parameters of the embedded functions: the source code treats them as
  opaque effects and so do we.
* A Go runtime panic (nil-pointer dereference, out-of-range index) is
  modelled as the error of an Except Unit result.
* A Go map with value type bool used as a set is modelled as a Finset.
* The float64 apportionment of the UTXO subscriber is modelled through
  an explicit FloatModel of its three float operations, constrained
  only by sign-and-exactness facts of IEEE binary64 round-to-nearest;
  no theorem about it relies on exact float arithmetic.
-/

set_option autoImplicit false

namespace Deblock

/-- ChainName constants from internal/chain/transaction_subscriber.go. -/
inductive ChainName where
  | ethereumMainnet
  | bitcoin
  | solanaMainnet
deriving DecidableEq, Repr

/-- TrackedWalletEvent from internal/chain/transaction_subscriber.go.
Amount and Fees are big.Int values, modelled as Int (the source always
stores results of int64 computations in them via big.NewInt). -/
structure TrackedWalletEvent where
  chainName : ChainName
  source : String
  destination : String
  amount : Int
  fees : Int
deriving DecidableEq, Repr

/-- Reduction of a Nat modulo 2^64, the behaviour of Go uint64 arithmetic. -/
def u64wrap (n : Nat) : Nat := n % 2 ^ 64

/-- Reinterpretation of a uint64 bit pattern as a Go int64 value,
performed by an int64(x) conversion in the source. -/
def i64ofU64 (n : Nat) : Int :=
  if n % 2 ^ 64 < 2 ^ 63 then ((n % 2 ^ 64 : Nat) : Int)
  else ((n % 2 ^ 64 : Nat) : Int) - 2 ^ 64

/-! ## EVM subscriber (internal/chain/ethereum_mainnet_subscriber.go) -/

/-- An EVM address: the 20 bytes of go-ethereum common.Address. -/
abbrev EvmAddr := List Nat

/-- Hex-digit test of go-ethereum common.isHexCharacter. -/
def isHexChar (c : Char) : Bool :=
  decide ((48 ≤ c.toNat ∧ c.toNat ≤ 57) ∨ (97 ≤ c.toNat ∧ c.toNat ≤ 102) ∨
    (65 ≤ c.toNat ∧ c.toNat ≤ 70))

/-- The 0x / 0X prefix test of go-ethereum common.has0xPrefix. -/
def hasHexPfx (cs : List Char) : Bool :=
  match cs with
  | a :: b :: _ => decide (a = '0' ∧ (b = 'x' ∨ b = 'X'))
  | _ => false

/-- Drop a leading 0x / 0X, as go-ethereum does before hex parsing. -/
def stripHexPfx (cs : List Char) : List Char :=
  if hasHexPfx cs then cs.drop 2 else cs

/-- go-ethereum common.IsHexAddress: after stripping an optional 0x the
string must be exactly 40 hex digits. -/
def isHexAddress (s : String) : Bool :=
  let cs := stripHexPfx s.data
  decide (cs.length = 40) && cs.all isHexChar

/-- Numeric value of a hex digit (0 on non-digits, never reached on
validated input). -/
def hexVal (c : Char) : Nat :=
  if 48 ≤ c.toNat ∧ c.toNat ≤ 57 then c.toNat - 48
  else if 97 ≤ c.toNat ∧ c.toNat ≤ 102 then c.toNat - 97 + 10
  else if 65 ≤ c.toNat ∧ c.toNat ≤ 70 then c.toNat - 65 + 10
  else 0

/-- Hex string (as chars) to bytes, two digits per byte, as
go-ethereum common.Hex2Bytes on a validated even-length string. -/
def hexPairs : List Char → List Nat
  | a :: b :: rest => (hexVal a * 16 + hexVal b) :: hexPairs rest
  | _ => []

/-- validateEvmWallet from ethereum_mainnet_subscriber.go: IsHexAddress
check, then HexToAddress; none models the returned error. -/
def validateEvmWallet (s : String) : Option EvmAddr :=
  if isHexAddress s then some (hexPairs (stripHexPfx s.data)) else none

/-- TrackWallet of the EVM subscriber: validate, then insert into the
registeredWallets set; on validation failure return the error with the
registry untouched (the Go method returns before any mutation). -/
def ethTrackWallet (wallet : String) (reg : Finset EvmAddr) :
    Finset EvmAddr × Option String :=
  match validateEvmWallet wallet with
  | none => (reg, some "invalid ethereum wallet address")
  | some address => (insert address reg, none)

/-- UntrackWallet of the EVM subscriber: validate, then delete from the
registeredWallets set. -/
def ethUntrackWallet (wallet : String) (reg : Finset EvmAddr) :
    Finset EvmAddr × Option String :=
  match validateEvmWallet wallet with
  | none => (reg, some "invalid ethereum wallet address")
  | some address => (reg.erase address, none)

/-- An EVM transaction as read by the ingestion loop: the optional To
field, the gas price (a big.Int, non-negative), the gas limit (uint64,
already reduced), and the transferred value. -/
structure EvmTx where
  toAddr : Option EvmAddr
  gasPrice : Nat
  gas : Nat
  value : Nat
deriving Repr

/-- The fee computation of the EVM ingestion loop, verbatim from
big.NewInt(int64(tx.GasPrice().Uint64() * tx.Gas())): the big gas price
is reduced to uint64, multiplied with wrap-around, and the 64-bit result
reinterpreted as a signed int64. -/
def evmFees (gasPrice gas : Nat) : Int :=
  i64ofU64 (u64wrap (u64wrap gasPrice * u64wrap gas))

/-- Processing of one EVM transaction inside the Start loop.
recoverSender models types.Sender (none = recovery error, tx skipped);
addrToString models common.Address.String. The Except error models the
nil-pointer dereference of to.String() when To is absent but the event
is emitted; ok none means no event. -/
def evmProcessTx (recoverSender : EvmTx → Option EvmAddr)
    (addrToString : EvmAddr → String) (reg : Finset EvmAddr) (tx : EvmTx) :
    Except Unit (Option TrackedWalletEvent) :=
  let fees := evmFees tx.gasPrice tx.gas
  let amount := tx.value
  match recoverSender tx with
  | none => .ok none
  | some wallet =>
    let okSender := decide (wallet ∈ reg)
    let okRecipient := match tx.toAddr with
      | some a => decide (a ∈ reg)
      | none => false
    if okSender || okRecipient then
      match tx.toAddr with
      | none => .error ()
      | some t =>
        .ok (some ⟨ChainName.ethereumMainnet, addrToString wallet,
          addrToString t, (amount : Int), fees⟩)
    else .ok none

/-- Processing of a full EVM block: transactions in order; a panic in
any transaction aborts the goroutine. -/
def evmProcessBlock (recoverSender : EvmTx → Option EvmAddr)
    (addrToString : EvmAddr → String) (reg : Finset EvmAddr) :
    List EvmTx → Except Unit (List TrackedWalletEvent)
  | [] => .ok []
  | tx :: rest => do
    let ev ← evmProcessTx recoverSender addrToString reg tx
    let evs ← evmProcessBlock recoverSender addrToString reg rest
    match ev with
    | some e => .ok (e :: evs)
    | none => .ok evs

/-! ## Slot (Solana) subscriber (internal/chain/solana_mainnet_subscriber.go) -/

/-- A Solana public key: the 32 bytes of blocto common.PublicKey. -/
abbrev SolPubKey := List Nat

/-- The bitcoin-style base58 alphabet used by the mr-tron base58 package. -/
def base58Alphabet : List Char :=
  "123456789ABCDEFGHJKLMNPQRSTUVWXYZabcdefghijkmnopqrstuvwxyz".data

/-- Digit value of a character in the base58 alphabet, none when the
character is not in the alphabet. -/
def base58CharVal (c : Char) : Option Nat :=
  base58Alphabet.findIdx? (fun a => a = c)

/-- Fuelled helper for natToBeBytes; the fuel only bounds the recursion
depth (n / 256 < n for positive n, so fuel n always suffices). -/
def natToBeBytesAux : Nat → Nat → List Nat
  | 0, _ => []
  | _ + 1, 0 => []
  | fuel + 1, n => natToBeBytesAux fuel (n / 256) ++ [n % 256]

/-- Minimal big-endian byte representation of a Nat (empty for zero). -/
def natToBeBytes (n : Nat) : List Nat := natToBeBytesAux n n

/-- base58.Decode of the mr-tron package: error (none) exactly on the
empty string or on a character outside the alphabet; otherwise one zero
byte per leading one-digit followed by the big-endian bytes of the value
of the string read as a base-58 number. -/
def base58Decode (s : String) : Option (List Nat) :=
  let cs := s.data
  if cs.isEmpty then none
  else if cs.all (fun c => (base58CharVal c).isSome) then
    let zcount := (cs.takeWhile (fun c => c = '1')).length
    let value := cs.foldl (fun acc c => acc * 58 + (base58CharVal c).getD 0) 0
    some (List.replicate zcount 0 ++ natToBeBytes value)
  else none

/-- blocto common.PublicKeyFromBytes: bytes beyond 32 are truncated and
the remainder is copied right-aligned into a zeroed 32-byte key. No
length check is performed and no error can be returned. -/
def publicKeyFromBytes (b : List Nat) : SolPubKey :=
  let b := b.take 32
  List.replicate (32 - b.length) 0 ++ b

/-- validateSolanaWallet from solana_mainnet_subscriber.go: base58-decode
(error propagated) then PublicKeyFromBytes, with no length check. -/
def validateSolanaWallet (wallet : String) : Option SolPubKey :=
  match base58Decode wallet with
  | none => none
  | some b => some (publicKeyFromBytes b)

/-- TrackWallet of the Solana subscriber: validate, then insert into the
registeredWallets set keyed by the 32-byte public key. -/
def solTrackWallet (wallet : String) (reg : Finset SolPubKey) :
    Finset SolPubKey × Option String :=
  match validateSolanaWallet wallet with
  | none => (reg, some "invalid wallet address")
  | some address => (insert address reg, none)

/-- UntrackWallet of the Solana subscriber: validate, then delete from
the registeredWallets set. -/
def solUntrackWallet (wallet : String) (reg : Finset SolPubKey) :
    Finset SolPubKey × Option String :=
  match validateSolanaWallet wallet with
  | none => (reg, some "invalid wallet address")
  | some address => (reg.erase address, none)

/-- The fields of client.TransactionMeta read by fetchBlock: fee (uint64)
and the pre / post balance lists (int64 values). -/
structure SolTransactionMeta where
  fee : Nat
  preBalances : List Int
  postBalances : List Int
deriving Repr

/-- A block transaction as read by fetchBlock: optional meta and the
account list of the transaction message. -/
structure SolBlockTransaction where
  meta : Option SolTransactionMeta
  accounts : List SolPubKey
deriving Repr

/-- The account-classification loop of fetchBlock: for account i the
balance delta is postBalances[i] - preBalances[i]; zero deltas are
skipped, negative deltas are recorded as senders with amount -delta,
positive ones as recipients with amount delta, in account order. none
models the index-out-of-range panic when an account index has no
corresponding balance entry. -/
def solClassify (pre post : List Int) :
    List SolPubKey → Nat →
    Option (List (SolPubKey × Int) × List (SolPubKey × Int))
  | [], _ => some ([], [])
  | a :: rest, i =>
    match post.get? i, pre.get? i with
    | some p, some q =>
      match solClassify pre post rest (i + 1) with
      | none => none
      | some (sends, recvs) =>
        let change := p - q
        if change = 0 then some (sends, recvs)
        else if change < 0 then some ((a, -change) :: sends, recvs)
        else some (sends, (a, change) :: recvs)
    | _, _ => none

/-- Processing of one transaction inside fetchBlock: skip on missing
meta, empty account list, or pre/post length mismatch; otherwise emit
one event per tracked sender (fees = tx.Meta.Fee) and one per tracked
recipient (also fees = tx.Meta.Fee, taken verbatim from the source).
pkToString models common.PublicKey.String. -/
def solProcessTx (pkToString : SolPubKey → String) (reg : Finset SolPubKey)
    (tx : SolBlockTransaction) : Option (List TrackedWalletEvent) :=
  match tx.meta with
  | none => some []
  | some meta =>
    if tx.accounts.isEmpty then some []
    else if meta.postBalances.length ≠ meta.preBalances.length then some []
    else
      match solClassify meta.preBalances meta.postBalances tx.accounts 0 with
      | none => none
      | some (senders, recipients) =>
        let recipientsCommaSep :=
          String.intercalate "," (recipients.map (fun r => pkToString r.1))
        let sendersCommaSep :=
          String.intercalate "," (senders.map (fun s => pkToString s.1))
        let senderEvents := senders.filterMap (fun s =>
          if s.1 ∈ reg then
            some ⟨ChainName.solanaMainnet, pkToString s.1, recipientsCommaSep,
              s.2, i64ofU64 meta.fee⟩
          else none)
        let recipientEvents := recipients.filterMap (fun r =>
          if r.1 ∈ reg then
            some ⟨ChainName.solanaMainnet, sendersCommaSep, pkToString r.1,
              r.2, i64ofU64 meta.fee⟩
          else none)
        some (senderEvents ++ recipientEvents)

/-- Events produced by fetchBlock for a successfully fetched block:
transactions in block order, sender events before recipient events
within a transaction. -/
def solFetchBlockEvents (pkToString : SolPubKey → String)
    (reg : Finset SolPubKey) :
    List SolBlockTransaction → Option (List TrackedWalletEvent)
  | [] => some []
  | tx :: rest =>
    match solProcessTx pkToString reg tx, solFetchBlockEvents pkToString reg rest with
    | some evs, some more => some (evs ++ more)
    | _, _ => none

/-! ## UTXO (Bitcoin) subscriber (the bitcoin subscriber file of package
internal/chain, provided unnamed in the repository) -/

/-- A previous-output reference of a transaction input
(wire.OutPoint): transaction hash (abstract id) and output index. -/
structure OutPoint where
  hash : Nat
  index : Nat
deriving DecidableEq, Repr

/-- A transaction input as read by the loop: only its PreviousOutPoint. -/
structure BtcTxIn where
  previousOutPoint : OutPoint
deriving DecidableEq, Repr

/-- A transaction output: int64 value and its script (abstract id used
as key for the address-extraction oracle). -/
structure BtcTxOut where
  value : Int
  pkScript : Nat
deriving DecidableEq, Repr

/-- A bitcoin transaction: inputs and outputs. -/
structure BtcTx where
  txIn : List BtcTxIn
  txOut : List BtcTxOut
deriving DecidableEq, Repr

/-- The input-resolution loop of the bitcoin Start goroutine. getRaw
models c.GetRawTransaction (none = RPC error, input skipped); extract
models txscript.ExtractPkScriptAddrs on a pkScript (none = error or an
empty address list once flattened below). Returns in-order lists of
recorded previous-output values and wallets plus the value total; the
Except error models the out-of-range panic of
prevTx.MsgTx().TxOut[prevIndex], which is indexed with no bounds check
before the address extraction. -/
def btcResolveInputs (getRaw : Nat → Option BtcTx)
    (extract : Nat → Option (List String)) :
    List BtcTxIn → Except Unit (List Int × Int × List String)
  | [] => .ok ([], 0, [])
  | txIn :: rest =>
    match getRaw txIn.previousOutPoint.hash with
    | none => btcResolveInputs getRaw extract rest
    | some prevTx =>
      if h : txIn.previousOutPoint.index < prevTx.txOut.length then
        let prevTxOut := prevTx.txOut.get ⟨txIn.previousOutPoint.index, h⟩
        match btcResolveInputs getRaw extract rest with
        | .error e => .error e
        | .ok (amts, total, wallets) =>
          match extract prevTxOut.pkScript with
          | none => .ok (amts, total, wallets)
          | some [] => .ok (amts, total, wallets)
          | some (a :: _) =>
            .ok (prevTxOut.value :: amts, total + prevTxOut.value, a :: wallets)
      else .error ()

/-- The output-collection loop: outputs whose script yields no address
are skipped; otherwise value and first address are recorded in order
and the value added to the running total. -/
def btcCollectOutputs (extract : Nat → Option (List String)) :
    List BtcTxOut → List Int × Int × List String
  | [] => ([], 0, [])
  | txOut :: rest =>
    let (amts, total, wallets) := btcCollectOutputs extract rest
    match extract txOut.pkScript with
    | none => (amts, total, wallets)
    | some [] => (amts, total, wallets)
    | some (a :: _) => (txOut.value :: amts, total + txOut.value, a :: wallets)

/-- ASCII lower-casing of a character, the effect of Go strings.ToLower
on the alphabets of bitcoin addresses. -/
def charToLower (c : Char) : Char :=
  if 65 ≤ c.toNat ∧ c.toNat ≤ 90 then Char.ofNat (c.toNat + 32) else c

/-- Go strings.ToLower as used on bitcoin address strings. -/
def strToLower (s : String) : String := ⟨s.data.map charToLower⟩

/-- Truncation toward zero of a rational, the behaviour of Go's int64()
conversion applied to a finite float64 value. -/
def ratTrunc (q : ℚ) : Int := if 0 ≤ q then q.floor else -(-q).floor

/-- Model of the float64 arithmetic of the apportionment: the values
computed by the program are rationals (every finite binary64 value is
rational), and the three operations the source performs — int64 to
float64 conversion, float division, float multiplication — are opaque
functions constrained only by facts that hold of IEEE binary64
round-to-nearest arithmetic at every argument the subscriber can reach
(operands are conversions of int64 values, with a positive divisor, so
no NaN, infinity or overflow arises there):
conversion is exact below 2^53 and preserves sign everywhere; division
of a nonzero finite value by itself is exactly 1 and division of
non-negative values is non-negative; multiplication by 1 is exact and
multiplication preserves sign. The rounding error of the operations is
otherwise unconstrained, so nothing proved for every FloatModel relies
on exact arithmetic. exactFloatModel below witnesses that the
constraints are satisfiable. -/
structure FloatModel where
  i2f : Int → ℚ
  fdiv : ℚ → ℚ → ℚ
  fmul : ℚ → ℚ → ℚ
  i2f_small : ∀ n : Int, n.natAbs < 2 ^ 53 → i2f n = (n : ℚ)
  i2f_nonneg : ∀ n : Int, 0 ≤ n → 0 ≤ i2f n
  i2f_nonpos : ∀ n : Int, n ≤ 0 → i2f n ≤ 0
  fdiv_self : ∀ a : ℚ, a ≠ 0 → fdiv a a = 1
  fdiv_nonneg : ∀ a b : ℚ, 0 ≤ a → 0 ≤ b → 0 ≤ fdiv a b
  fmul_one : ∀ a : ℚ, fmul a 1 = a
  fmul_nonneg : ∀ a b : ℚ, 0 ≤ a → 0 ≤ b → 0 ≤ fmul a b
  fmul_nonpos : ∀ a b : ℚ, a ≤ 0 → 0 ≤ b → fmul a b ≤ 0

/-- The exact-arithmetic instance of FloatModel: it satisfies every
constraint, so the constraints are consistent; it agrees with IEEE
evaluation wherever every intermediate value is exactly representable
(as at the concrete inputs of the evaluation theorems below). -/
def exactFloatModel : FloatModel where
  i2f n := (n : ℚ)
  fdiv a b := a / b
  fmul a b := a * b
  i2f_small _ _ := rfl
  i2f_nonneg n h := by show (0 : ℚ) ≤ (n : ℚ); exact_mod_cast h
  i2f_nonpos n h := by show (n : ℚ) ≤ 0; exact_mod_cast h
  fdiv_self _ h := div_self h
  fdiv_nonneg _ _ ha hb := div_nonneg ha hb
  fmul_one _ := mul_one _
  fmul_nonneg _ _ ha hb := mul_nonneg ha hb
  fmul_nonpos a b ha hb := mul_nonpos_iff.mpr (Or.inr ⟨ha, hb⟩)

/-- The per-output apportionment of the bitcoin loop, verbatim: when the
output total and this output's value are positive, the source computes
p := float64(outAmounts[i]) / float64(outAmountTotal), then truncates
float64(outAmountTotal) * p and float64(fees) * p to int64; otherwise
both results are zero. Each float64 conversion and operation is the
corresponding operation of the given FloatModel. -/
def btcApportion (fm : FloatModel) (fees outAmountTotal outValue : Int) :
    Int × Int :=
  if 0 < outAmountTotal ∧ 0 < outValue then
    let p := fm.fdiv (fm.i2f outValue) (fm.i2f outAmountTotal)
    (ratTrunc (fm.fmul (fm.i2f outAmountTotal) p),
      ratTrunc (fm.fmul (fm.i2f fees) p))
  else (0, 0)

/-- The emission loop over collected outputs (value, wallet) pairs: an
event is sent for each output whose lowercased wallet is registered. -/
def btcEmitEvents (fm : FloatModel) (reg : Finset String) (sources : String)
    (fees outAmountTotal : Int) :
    List (Int × String) → List TrackedWalletEvent
  | [] => []
  | (v, w) :: rest =>
    let tail := btcEmitEvents fm reg sources fees outAmountTotal rest
    if strToLower w ∈ reg then
      ⟨ChainName.bitcoin, sources, w, (btcApportion fm fees outAmountTotal v).1,
        (btcApportion fm fees outAmountTotal v).2⟩ :: tail
    else tail

/-- Processing of one bitcoin transaction: resolve inputs (may panic on
an out-of-range previous-output index), collect outputs, compute
fees = total-in - total-out, and emit one event per tracked output. -/
def btcProcessTx (fm : FloatModel) (getRaw : Nat → Option BtcTx)
    (extract : Nat → Option (List String)) (reg : Finset String)
    (tx : BtcTx) : Except Unit (List TrackedWalletEvent) :=
  match btcResolveInputs getRaw extract tx.txIn with
  | .error e => .error e
  | .ok (_, inAmountTotal, inWallets) =>
    let c := btcCollectOutputs extract tx.txOut
    let fees := inAmountTotal - c.2.1
    let sources := String.intercalate "," inWallets
    .ok (btcEmitEvents fm reg sources fees c.2.1 (c.1.zip c.2.2))

/-- Processing of the transactions of a fetched block, in order. -/
def btcProcessBlock (fm : FloatModel) (getRaw : Nat → Option BtcTx)
    (extract : Nat → Option (List String)) (reg : Finset String) :
    List BtcTx → Except Unit (List TrackedWalletEvent)
  | [] => .ok []
  | tx :: rest => do
    let evs ← btcProcessTx fm getRaw extract reg tx
    let more ← btcProcessBlock fm getRaw extract reg rest
    .ok (evs ++ more)

/-- TrackWallet of the bitcoin subscriber. decodeAddr models
btcutil.DecodeAddress composed with the Address.String method (the
canonical string of the decoded address); the registry stores the
lowercased canonical string. -/
def btcTrackWallet (decodeAddr : String → Option String) (wallet : String)
    (reg : Finset String) : Finset String × Option String :=
  match decodeAddr wallet with
  | none => (reg, some "invalid btc address")
  | some a => (insert (strToLower a) reg, none)

/-- UntrackWallet of the bitcoin subscriber. -/
def btcUntrackWallet (decodeAddr : String → Option String) (wallet : String)
    (reg : Finset String) : Finset String × Option String :=
  match decodeAddr wallet with
  | none => (reg, some "invalid btc address")
  | some a => (reg.erase (strToLower a), none)

/-- Which RPC query of one polling tick failed; these are the errors the
goroutine sends on its errors channel. -/
inductive BtcErr where
  | blockCount
  | blockHash
  | blockInfo
deriving DecidableEq, Repr

/-- A fetched bitcoin block: its transactions. -/
structure BtcBlock where
  transactions : List BtcTx
deriving Repr

/-- Results of the three block-level RPC calls of one tick. getBlock
receives the optional hash because the source passes the nil hash
pointer along after a GetBlockHash failure. -/
structure BtcRpcTick where
  getBlockCount : Except String Int
  getBlockHash : Int → Except String Nat
  getBlock : Option Nat → Except String BtcBlock

/-- One iteration of the 15-second polling loop of the bitcoin Start
goroutine, from the current lastBlockNum. Returns the errors sent on
the errors channel and either the new lastBlockNum with the emitted
events, or the panic (Except error) that kills the goroutine: after a
GetBlockCount error the code continues with latestBlock = 0; after a
GetBlockHash or GetBlock error it continues with a nil hash / nil
block, and dereferences the nil block unconditionally. -/
def btcTick (fm : FloatModel) (rpc : BtcRpcTick) (getRaw : Nat → Option BtcTx)
    (extract : Nat → Option (List String)) (reg : Finset String)
    (lastBlockNum : Int) :
    List BtcErr × Except Unit (Int × List TrackedWalletEvent) :=
  let r0 : Int × List BtcErr :=
    match rpc.getBlockCount with
    | .ok n => (n, [])
    | .error _ => (0, [BtcErr.blockCount])
  let latestBlock := r0.1
  if lastBlockNum < latestBlock then
    let r1 : Option Nat × List BtcErr :=
      match rpc.getBlockHash latestBlock with
      | .ok h => (some h, [])
      | .error _ => (none, [BtcErr.blockHash])
    let r2 : Option BtcBlock × List BtcErr :=
      match rpc.getBlock r1.1 with
      | .ok b => (some b, [])
      | .error _ => (none, [BtcErr.blockInfo])
    let errs := r0.2 ++ r1.2 ++ r2.2
    match r2.1 with
    | none => (errs, .error ())
    | some b =>
      match btcProcessBlock fm getRaw extract reg b.transactions with
      | .error e => (errs, .error e)
      | .ok evs => (errs, .ok (latestBlock, evs))
  else
    (r0.2, .ok (lastBlockNum, []))

/-! ## Subscriber manager (the manager file of package internal/chain,
provided unnamed in the repository) -/

/-- A registered TransactionSubscriber as the manager sees it: its Name,
the result of its Init call (some = the error Init returns), an abstract
registry state and the behaviour of its TrackWallet / UntrackWallet
methods on that state (each subscriber variant supplies its own). -/
structure SubscriberModel where
  name : ChainName
  initErr : Option String
  reg : Finset String
  trackF : String → Finset String → Finset String × Option String
  untrackF : String → Finset String → Finset String × Option String

/-- The manager's subs map, modelled as an association list with unique
keys (insertion adds a key only when absent). -/
abbrev ManagerMap := List (ChainName × SubscriberModel)

/-- Lookup in the subs map. -/
def lookupSub : ManagerMap → ChainName → Option SubscriberModel
  | [], _ => none
  | (c, s) :: rest, chain => if c = chain then some s else lookupSub rest chain

/-- In-place update of the entry of a chain, used when a forwarded
Track/Untrack mutates that subscriber's registry. -/
def updateSub : ManagerMap → ChainName → SubscriberModel → ManagerMap
  | [], _, _ => []
  | (c, s) :: rest, chain, s' =>
    if c = chain then (c, s') :: rest else (c, s) :: updateSub rest chain s'

/-- RegisterSubscribers of mapSubManager: for each subscriber in order,
reject (stop, error) when its chain is already in the map, call Init and
stop on its error, otherwise add it; entries added before a failure
remain in the map, exactly as the Go method mutates m.subs in place. -/
def registerSubscribers : ManagerMap → List SubscriberModel →
    ManagerMap × Option String
  | m, [] => (m, none)
  | m, s :: rest =>
    match lookupSub m s.name with
    | some _ => (m, some "subscriber for chain already exists")
    | none =>
      match s.initErr with
      | some e => (m, some ("initializing subscriber: " ++ e))
      | none => registerSubscribers (m ++ [(s.name, s)]) rest

/-- TrackWallet of mapSubManager: look the chain up; forward when
present, otherwise return the no-registered-subscriber error with every
registry untouched. -/
def managerTrackWallet (m : ManagerMap) (wallet : String)
    (chain : ChainName) : ManagerMap × Option String :=
  match lookupSub m chain with
  | some sub =>
    let r := sub.trackF wallet sub.reg
    (updateSub m chain { sub with reg := r.1 }, r.2)
  | none => (m, some "no registered subscriber for chain")

/-- UntrackWallet of mapSubManager. -/
def managerUntrackWallet (m : ManagerMap) (wallet : String)
    (chain : ChainName) : ManagerMap × Option String :=
  match lookupSub m chain with
  | some sub =>
    let r := sub.untrackF wallet sub.reg
    (updateSub m chain { sub with reg := r.1 }, r.2)
  | none => (m, some "no registered subscriber for chain")

/-! ## Claim theorems -/

/-- C1: the claim says a recipient-matched Slot event carries fees = 0.
Evaluating fetchBlock's transaction processing on a transaction with
fee 57, one sender and one tracked recipient shows the recipient event
carries fees = 57, the block-fee value, not 0 (the code passes
tx.Meta.Fee for recipients too, contradicting the TrackedWalletEvent
documentation in the source). -/
theorem c1_recipient_event_fee_eval :
    solProcessTx (fun _ => "") ({List.replicate 32 2} : Finset SolPubKey)
        ⟨some ⟨57, [1250, 500], [1000, 750]⟩,
          [List.replicate 32 1, List.replicate 32 2]⟩ =
      some [⟨ChainName.solanaMainnet, "", "", 250, 57⟩] ∧ (57 : Int) ≠ 0 :=
  ⟨by decide, by decide⟩

/-- C2: the claim says contract-creation transactions (absent To) are
skipped with no event and no nil-pointer dereference. Evaluating the
EVM transaction processing on a To-less transaction whose recovered
sender is tracked shows the goroutine instead panics (the source
dereferences the nil To pointer to build the destination string). -/
theorem c2_contract_creation_panic_eval :
    evmProcessTx (fun _ => some (List.replicate 20 1)) (fun _ => "")
        ({List.replicate 20 1} : Finset EvmAddr)
        ⟨none, 7424228342, 50000, 19220000000000000⟩ = .error () := by
  rfl

/-- C4: the claim says every tip / hash / block / raw-tx RPC error is
reported on the errors channel and the loop survives to later ticks.
Evaluating one polling tick shows a GetBlock error is reported but is
followed by the nil-block dereference that kills the goroutine, while
a GetBlockCount error is reported and survived. -/
theorem c4_block_fetch_error_panic_eval :
    btcTick exactFloatModel ⟨.ok 6, fun _ => .ok 0, fun _ => .error "rpc"⟩
        (fun _ => none) (fun _ => none) (∅ : Finset String) 5 =
      ([BtcErr.blockInfo], .error ()) ∧
    btcTick exactFloatModel ⟨.error "rpc", fun _ => .ok 0, fun _ => .ok ⟨[]⟩⟩
        (fun _ => none) (fun _ => none) (∅ : Finset String) 5 =
      ([BtcErr.blockCount], .ok (5, [])) :=
  ⟨rfl, rfl⟩

/-- C5: the claim says emitted EVM fees equal gas-price × gas-limit as
an exact non-negative arbitrary-precision integer. At gas-price 10^12
and gas 10^7 the exact product is 10^19, but the event carries the
wrapped signed-64-bit value -8446744073709551616. -/
theorem c5_fee_overflow_eval :
    evmFees 1000000000000 10000000 = -8446744073709551616 ∧
    (1000000000000 * 10000000 : Int) = 10000000000000000000 ∧
    evmProcessTx (fun _ => some (List.replicate 20 1)) (fun _ => "")
        ({List.replicate 20 1} : Finset EvmAddr)
        ⟨some (List.replicate 20 2), 1000000000000, 10000000, 5⟩ =
      .ok (some ⟨ChainName.ethereumMainnet, "", "", 5, -8446744073709551616⟩) :=
  ⟨by decide, by decide, by rfl⟩

/-- C6 counterexample: the claim says an address is accepted exactly
when it base58-decodes to 32 bytes. The string consisting of the single
character a decodes to the single byte 33, yet validation accepts it
and TrackWallet inserts the zero-padded key into the registry with no
error. -/
theorem c6_counterexample :
    base58Decode "a" = some [33] ∧ ([33] : List Nat).length ≠ 32 ∧
    solTrackWallet "a" (∅ : Finset SolPubKey) =
      ({List.replicate 31 0 ++ [33]}, none) :=
  ⟨by decide, by decide, by decide⟩

/-- C8: for every subscriber variant and every address string its
validator rejects, Track and Untrack return the validation error and
leave the wallet registry unchanged (validation precedes any mutation). -/
theorem c8_validation_atomicity (we ws wb : String)
    (decodeAddr : String → Option String)
    (rege : Finset EvmAddr) (regs : Finset SolPubKey) (regb : Finset String)
    (hve : validateEvmWallet we = none) (hvs : validateSolanaWallet ws = none)
    (hvb : decodeAddr wb = none) :
    ethTrackWallet we rege = (rege, some "invalid ethereum wallet address") ∧
    ethUntrackWallet we rege = (rege, some "invalid ethereum wallet address") ∧
    solTrackWallet ws regs = (regs, some "invalid wallet address") ∧
    solUntrackWallet ws regs = (regs, some "invalid wallet address") ∧
    btcTrackWallet decodeAddr wb regb = (regb, some "invalid btc address") ∧
    btcUntrackWallet decodeAddr wb regb = (regb, some "invalid btc address") := by
  refine ⟨?_, ?_, ?_, ?_, ?_, ?_⟩ <;>
    simp [ethTrackWallet, ethUntrackWallet, solTrackWallet, solUntrackWallet,
      btcTrackWallet, btcUntrackWallet, hve, hvs, hvb]

/-- Closed witness for C8 at concrete rejected inputs: the string 0 is
neither a 40-hex-digit EVM address nor base58 (0 is outside the
alphabet), and a btcutil decoder that rejects the given string. -/
theorem c8_validation_atomicity_witness :
    ethTrackWallet "0" (∅ : Finset EvmAddr) =
      (∅, some "invalid ethereum wallet address") ∧
    solTrackWallet "0" (∅ : Finset SolPubKey) =
      (∅, some "invalid wallet address") ∧
    btcTrackWallet (fun _ => none) "x" (∅ : Finset String) =
      (∅, some "invalid btc address") := by
  have h := c8_validation_atomicity "0" "0" "x" (fun _ => none) ∅ ∅ ∅
    (by decide) (by decide) rfl
  exact ⟨h.1, h.2.2.1, h.2.2.2.2.1⟩

/-- C9: RegisterSubscribers stops with an error whenever the next
subscriber's chain is already registered, leaving the map exactly as it
was (the original entry kept, the duplicate not added, later
subscribers unprocessed); and the manager's Track/Untrack for a chain
with no registered subscriber return the no-registered-subscriber
error with no effect on any registry. -/
theorem c9_manager_registration_and_miss (m : ManagerMap)
    (s t : SubscriberModel) (rest : List SubscriberModel) (w : String)
    (c : ChainName) (hdup : lookupSub m s.name = some t)
    (hmiss : lookupSub m c = none) :
    registerSubscribers m (s :: rest) =
      (m, some "subscriber for chain already exists") ∧
    managerTrackWallet m w c =
      (m, some "no registered subscriber for chain") ∧
    managerUntrackWallet m w c =
      (m, some "no registered subscriber for chain") := by
  refine ⟨?_, ?_, ?_⟩ <;>
    simp [registerSubscribers, managerTrackWallet, managerUntrackWallet,
      hdup, hmiss]

/-- Closed witness for C9: a map holding one EVM subscriber rejects
re-registration of an EVM-named subscriber, and Track for the
unregistered bitcoin chain errors without touching the map. -/
theorem c9_manager_registration_and_miss_witness :
    registerSubscribers
        [(ChainName.ethereumMainnet,
          ⟨ChainName.ethereumMainnet, none, ∅, fun _ r => (r, none),
            fun _ r => (r, none)⟩)]
        [⟨ChainName.ethereumMainnet, none, ∅, fun _ r => (r, none),
          fun _ r => (r, none)⟩] =
      ([(ChainName.ethereumMainnet,
          ⟨ChainName.ethereumMainnet, none, ∅, fun _ r => (r, none),
            fun _ r => (r, none)⟩)],
        some "subscriber for chain already exists") ∧
    managerTrackWallet
        [(ChainName.ethereumMainnet,
          ⟨ChainName.ethereumMainnet, none, ∅, fun _ r => (r, none),
            fun _ r => (r, none)⟩)] "w" ChainName.bitcoin =
      ([(ChainName.ethereumMainnet,
          ⟨ChainName.ethereumMainnet, none, ∅, fun _ r => (r, none),
            fun _ r => (r, none)⟩)],
        some "no registered subscriber for chain") := by
  have h := c9_manager_registration_and_miss
    [(ChainName.ethereumMainnet,
      ⟨ChainName.ethereumMainnet, none, ∅, fun _ r => (r, none),
        fun _ r => (r, none)⟩)]
    ⟨ChainName.ethereumMainnet, none, ∅, fun _ r => (r, none),
      fun _ r => (r, none)⟩
    ⟨ChainName.ethereumMainnet, none, ∅, fun _ r => (r, none),
      fun _ r => (r, none)⟩
    [] "w" ChainName.bitcoin rfl rfl
  exact ⟨h.1, h.2.1⟩

/-- The mr-tron decoder errors exactly on the empty string or on a
character outside the base58 alphabet. -/
lemma base58Decode_eq_none_iff (w : String) :
    base58Decode w = none ↔
      (w.data = [] ∨ ∃ c ∈ w.data, base58CharVal c = none) := by
  simp only [base58Decode]
  split_ifs with h1 h2
  · simpa using Or.inl (List.isEmpty_iff.mp h1)
  · simp only [reduceCtorEq, false_iff]
    rintro (hnil | ⟨c, hc, hnone⟩)
    · exact h1 (by simp [hnil])
    · have := List.all_eq_true.mp h2 c hc
      simp [hnone] at this
  · simp only [true_iff]
    refine Or.inr ?_
    have h2' := List.all_eq_true.not.mp h2
    push_neg at h2'
    obtain ⟨c, hc, hns⟩ := h2'
    exact ⟨c, hc, Option.not_isSome_iff_eq_none.mp (by simpa using hns)⟩

/-- Validation fails exactly when decoding fails: PublicKeyFromBytes
never errors. -/
lemma validateSolanaWallet_eq_none_iff_decode (w : String) :
    validateSolanaWallet w = none ↔ base58Decode w = none := by
  unfold validateSolanaWallet
  cases h : base58Decode w <;> simp

/-- C6 amended: Slot address validation rejects a string exactly when it
is empty or contains a character outside the base58 alphabet — no
32-byte length requirement is enforced (the decoded bytes are padded or
truncated into the key) — and on rejection Track and Untrack return the
validation error with the registry unchanged. -/
theorem c6_amended (w : String) (reg : Finset SolPubKey) :
    (validateSolanaWallet w = none ↔
      (w.data = [] ∨ ∃ c ∈ w.data, base58CharVal c = none)) ∧
    (validateSolanaWallet w = none →
      solTrackWallet w reg = (reg, some "invalid wallet address") ∧
      solUntrackWallet w reg = (reg, some "invalid wallet address")) := by
  constructor
  · exact (validateSolanaWallet_eq_none_iff_decode w).trans
      (base58Decode_eq_none_iff w)
  · intro hw
    constructor <;> simp [solTrackWallet, solUntrackWallet, hw]

/-- Closed witness for C6: the string 0 contains a character outside
the base58 alphabet, so validation rejects it and TrackWallet leaves an
empty registry empty. -/
theorem c6_amended_witness :
    validateSolanaWallet "0" = none ∧
    solTrackWallet "0" (∅ : Finset SolPubKey) =
      (∅, some "invalid wallet address") :=
  ⟨by decide, ((c6_amended "0" ∅).2 (by decide)).1⟩

/-- C10: input resolution panics exactly when some input whose previous
transaction is fetched successfully declares an output index that is
not below the number of outputs of that transaction; in particular,
under the precondition that every fetched input's declared index is in
range, processing is total. -/
theorem c10_prevout_index_bounds (getRaw : Nat → Option BtcTx)
    (extract : Nat → Option (List String)) (l : List BtcTxIn) :
    btcResolveInputs getRaw extract l = .error () ↔
      ∃ txIn ∈ l, ∃ prevTx, getRaw txIn.previousOutPoint.hash = some prevTx ∧
        prevTx.txOut.length ≤ txIn.previousOutPoint.index := by
  induction l with
  | nil => simp [btcResolveInputs]
  | cons txIn rest ih =>
    cases hg : getRaw txIn.previousOutPoint.hash with
    | none =>
      rw [btcResolveInputs, hg, ih]
      constructor
      · rintro ⟨i, hi, h⟩
        exact ⟨i, List.mem_cons_of_mem _ hi, h⟩
      · rintro ⟨i, hi, ptx, hptx, hlen⟩
        rcases List.mem_cons.mp hi with rfl | hi
        · rw [hg] at hptx
          cases hptx
        · exact ⟨i, hi, ptx, hptx, hlen⟩
    | some ptx =>
      rw [btcResolveInputs, hg]
      dsimp only
      by_cases hidx : txIn.previousOutPoint.index < ptx.txOut.length
      · rw [dif_pos hidx]
        cases hr : btcResolveInputs getRaw extract rest with
        | error e =>
          cases e
          simp only [true_iff]
          obtain ⟨i, hi, w⟩ := ih.mp hr
          exact ⟨i, List.mem_cons_of_mem _ hi, w⟩
        | ok r =>
          obtain ⟨amts, total, wallets⟩ := r
          have hok : ∀ res : List Int × Int × List String,
              (Except.ok res : Except Unit _) ≠ .error () := fun _ h => by
            cases h
          constructor
          · intro hcontra
            cases he : extract (ptx.txOut.get
                ⟨txIn.previousOutPoint.index, hidx⟩).pkScript with
            | none => rw [he] at hcontra; exact absurd hcontra (hok _)
            | some ls =>
              cases ls with
              | nil => rw [he] at hcontra; exact absurd hcontra (hok _)
              | cons a tl => rw [he] at hcontra; exact absurd hcontra (hok _)
          · rintro ⟨i, hi, ptx', hptx', hlen⟩
            rcases List.mem_cons.mp hi with rfl | hi
            · rw [hg] at hptx'
              cases hptx'
              omega
            · have := ih.mpr ⟨i, hi, ptx', hptx', hlen⟩
              rw [this] at hr
              cases hr
      · rw [dif_neg hidx]
        simp only [true_iff]
        exact ⟨txIn, List.mem_cons_self _ _, ptx, hg, Nat.le_of_not_lt hidx⟩

end Deblock
